import Mathlib

/-!
Verification development for the tf-iam-scanner repository.

The repository is a Go CLI that scans Terraform files, extracts AWS
resources, data sources and a backend descriptor, and synthesizes an IAM
policy. This file gives a shallow embedding of the extractor
(parser.go) and the policy synthesizer (policy generation file) and
proves properties of them.

Modelling conventions:
- Go strings are Lean String values; all character-level operations
  (HasPrefix, HasSuffix, Contains, TrimSpace, Trim, Fields, Split) are
  re-implemented over the underlying character list so that they agree
  with the Go implementations on the ASCII data this program handles.
- Go maps are modelled as association lists holding the same key/value
  content; since Go map iteration order is randomized, every function
  whose result depends on an iteration order takes the order as an
  explicit parameter named order.  validOrder states that an order is a
  genuine iteration order, namely a permutation of the map keys.
- File I/O is modelled by passing the result of os.ReadFile as an
  Except value in a FileEntry, and the HCL structured parser is an
  oracle parameter returning some block list on success and none on a
  parse failure (the code then falls back to the line scanner).
-/

namespace TfIamScanner

/-! ### Character-level models of the Go strings package -/

/-- Model of the test strings.HasPrefix does on the character list: does the
first list start with the second. -/
def listStarts : List Char → List Char → Bool
  | _, [] => true
  | [], _ :: _ => false
  | a :: as, b :: bs => a = b && listStarts as bs

/-- Go strings.HasPrefix. -/
def goStartsWith (s p : String) : Bool := listStarts s.data p.data

/-- Go strings.HasSuffix. -/
def goEndsWith (s p : String) : Bool := listStarts s.data.reverse p.data.reverse

/-- Does the second list contain the first as a contiguous sublist. -/
def listHasSub (p : List Char) : List Char → Bool
  | [] => p.isEmpty
  | c :: cs => listStarts (c :: cs) p || listHasSub p cs

/-- Go strings.Contains. -/
def goContains (s p : String) : Bool := listHasSub p.data s.data

/-- Go unicode.IsSpace restricted to the ASCII whitespace characters
(space, tab, newline, vertical tab, form feed, carriage return). -/
def goIsSpace (c : Char) : Bool :=
  c = ' ' || c.toNat = 9 || c.toNat = 10 || c.toNat = 11 || c.toNat = 12 || c.toNat = 13

/-- Go strings.TrimSpace. -/
def goTrimSpace (s : String) : String :=
  String.mk (((s.data.dropWhile goIsSpace).reverse.dropWhile goIsSpace).reverse)

/-- Go strings.Trim(s, "\"") as used by the fallback scanner: remove all
leading and trailing double-quote characters. -/
def goTrimQuotes (s : String) : String :=
  String.mk (((s.data.dropWhile (fun c => c.toNat = 34)).reverse.dropWhile (fun c => c.toNat = 34)).reverse)

/-- Helper for goFields: accumulate the current field (reversed) while
walking the character list. -/
def goFieldsAux : List Char → List Char → List String
  | acc, [] => if acc.isEmpty then [] else [String.mk acc.reverse]
  | acc, c :: cs =>
    if goIsSpace c then
      if acc.isEmpty then goFieldsAux [] cs
      else String.mk acc.reverse :: goFieldsAux [] cs
    else goFieldsAux (c :: acc) cs

/-- Go strings.Fields: split around runs of whitespace, dropping empties. -/
def goFields (s : String) : List String := goFieldsAux [] s.data

/-- Split on newline characters, keeping empty segments; helper for
goSplitNewline. -/
def splitLines : List Char → List (List Char)
  | [] => [[]]
  | c :: cs =>
    if c.toNat = 10 then [] :: splitLines cs
    else
      match splitLines cs with
      | [] => [[c]]
      | l :: ls => (c :: l) :: ls

/-- Go strings.Split(s, "\n"). -/
def goSplitNewline (s : String) : List String := (splitLines s.data).map String.mk

/-- Number of colon characters in a string.  Go strings.Split(a, ":")
returns exactly two parts precisely when this count is one. -/
def colonCount (s : String) : Nat := s.data.count ':'

/-- The part of an action identifier before its first colon
(parts[0] of Go strings.Split(a, ":")). -/
def serviceOf (s : String) : String := String.mk (s.data.takeWhile (fun c => c != ':'))

/-- The part of an action identifier after its first colon
(parts[1] of Go strings.Split(a, ":") when there is exactly one colon). -/
def verbOf (s : String) : String := String.mk ((s.data.dropWhile (fun c => c != ':')).drop 1)

/-- Go strings.TrimPrefix(t, "data."). -/
def stripDataDot (t : String) : String :=
  if goStartsWith t "data." then String.mk (t.data.drop 5) else t

/-- Byte-wise (here character-wise) lexicographic strict order, as Go
compares strings; agrees with Go on ASCII data. -/
def ltChars : List Char → List Char → Bool
  | [], [] => false
  | [], _ :: _ => true
  | _ :: _, [] => false
  | a :: as, b :: bs => if a = b then ltChars as bs else decide (a < b)

/-- Go string strict order on Strings. -/
def ltStr (s t : String) : Bool := ltChars s.data t.data

/-- Reflexive closure of ltStr; the order sort.Strings sorts by. -/
def leStr (s t : String) : Bool := ltStr s t || s == t

/-- Insertion step of an insertion sort parameterized by a Boolean
order; used to model the deterministic result of the Go sorts. -/
def insertLe {α : Type} (le : α → α → Bool) (a : α) : List α → List α
  | [] => [a]
  | b :: bs => if le a b then a :: b :: bs else b :: insertLe le a bs

/-- Insertion sort by a Boolean order. -/
def sortLe {α : Type} (le : α → α → Bool) (l : List α) : List α := l.foldr (insertLe le) []

/-- Model of Go sort.Strings: the sorted arrangement of the list under
byte-wise lexicographic order. -/
def sortStrings (l : List String) : List String := sortLe leStr l

/-! ### Data model (parser.go) -/

/-- Go struct Resource (parser.go).  The Attributes map is omitted: no
code path that the claims concern reads it. -/
structure Resource where
  type : String
  name : String
  provider : String
  resourceType : String
deriving DecidableEq

/-- Go struct BackendConfig (parser.go); Config is the map content as an
association list. -/
structure BackendConfig where
  type : String
  config : List (String × String)
deriving DecidableEq

/-- Go struct ParseResult (parser.go). -/
structure ParseResult where
  resources : List Resource
  dataSources : List Resource
  backend : Option BackendConfig
deriving DecidableEq

/-- Go type PermissionMap: content of the permissions database as an
association list from resource type to action list. -/
abbrev PermissionMap := List (String × List String)

/-- Go getRequiredPermissions (parser.go lines 350-360): look up a
resource type, returning the empty list for unknown types. -/
def getRequiredPermissions (db : PermissionMap) (resourceType : String) : List String :=
  match db.find? (fun e => e.1 == resourceType) with
  | some e => e.2
  | none => []

/-! ### Structured (HCL) extraction model

An hclsyntax block is modelled by its type, its labels, and (for the
terraform block) its nested blocks.  Attribute values are modelled as
Option String: some v when the attribute statically evaluates to the
string v, none otherwise (extractBackendFromBlock keeps only
string-valued attributes). -/

/-- A nested block inside a top-level block (only the backend block
inside a terraform block is ever inspected). -/
structure NestedBlock where
  type : String
  labels : List String
  attrs : List (String × Option String)
deriving DecidableEq

/-- A top-level hclsyntax block. -/
structure Block where
  type : String
  labels : List String
  blocks : List NestedBlock
deriving DecidableEq

/-- Go extractResourceFromBlock (parser.go lines 158-192). -/
def extractResourceFromBlock (b : Block) : Option Resource :=
  if b.labels.length < 2 then none
  else
    let fullType := b.labels.getD 0 ""
    let name := b.labels.getD 1 ""
    let provider :=
      if goStartsWith fullType "aws_" then "aws"
      else if fullType.data.contains '_' then String.mk (fullType.data.takeWhile (fun c => c != '_'))
      else "aws"
    some ⟨fullType, name, provider, fullType⟩

/-- Go extractDataSourceFromBlock (parser.go lines 195-215); note the
provider is "aws" on both branches of the source conditional. -/
def extractDataSourceFromBlock (b : Block) : Option Resource :=
  if b.labels.length < 2 then none
  else
    let fullType := b.labels.getD 0 ""
    let name := b.labels.getD 1 ""
    let provider := if goStartsWith fullType "aws_" then "aws" else "aws"
    some ⟨fullType, name, provider, fullType⟩

/-- Go extractBackendFromBlock (parser.go lines 217-237): the first
nested backend block with at least one label yields the descriptor; its
string-valued attributes populate the config. -/
def extractBackendFromBlock (b : Block) : Option BackendConfig :=
  match b.blocks.find? (fun nb => nb.type == "backend" && decide (0 < nb.labels.length)) with
  | some nb =>
    some ⟨nb.labels.getD 0 "", nb.attrs.filterMap (fun a => (a.2).map (fun v => (a.1, v)))⟩
  | none => none

/-- One iteration of the block loop of parseTerraformFile
(parser.go lines 133-151). -/
def applyBlock (acc : ParseResult) (b : Block) : ParseResult :=
  if b.type == "resource" then
    match extractResourceFromBlock b with
    | some r => { acc with resources := acc.resources ++ [r] }
    | none => acc
  else if b.type == "data" then
    match extractDataSourceFromBlock b with
    | some d => { acc with dataSources := acc.dataSources ++ [d] }
    | none => acc
  else if b.type == "terraform" then
    match extractBackendFromBlock b with
    | some bc => { acc with backend := some bc }
    | none => acc
  else acc

/-- The block loop of parseTerraformFile on a successfully parsed file. -/
def parseBlocks (blocks : List Block) : ParseResult :=
  blocks.foldl applyBlock ⟨[], [], none⟩

/-! ### Fallback line scanner (parser.go lines 258-347) -/

/-- Scanner state: the result built so far plus the currentBlock and
currentName trackers of extractWithSimpleParsing. -/
structure ScanState where
  res : ParseResult
  currentBlock : String
  currentName : String
deriving DecidableEq

/-- The resource/data detection of the scanner (parser.go lines
278-320, an if/else-if chain in the source). -/
def scanResData (st : ScanState) (trimmed : String) : ScanState :=
  if goStartsWith trimmed "resource \"" then
    let parts := goFields trimmed
    if 2 ≤ parts.length then
      let resourceType := goTrimQuotes (parts.getD 1 "")
      let newName := if 3 ≤ parts.length then goTrimQuotes (parts.getD 2 "") else st.currentName
      let provider := if goStartsWith resourceType "aws_" then "aws" else "aws"
      { st with
        currentBlock := "resource"
        currentName := newName
        res := { st.res with
          resources := st.res.resources ++ [⟨resourceType, newName, provider, resourceType⟩] } }
    else { st with currentBlock := "resource" }
  else if goStartsWith trimmed "data \"" then
    let parts := goFields trimmed
    if 2 ≤ parts.length then
      let resourceType := goTrimQuotes (parts.getD 1 "")
      let newName := if 3 ≤ parts.length then goTrimQuotes (parts.getD 2 "") else st.currentName
      let provider := if goStartsWith resourceType "aws_" then "aws" else "aws"
      { st with
        currentBlock := "data"
        currentName := newName
        res := { st.res with
          dataSources := st.res.dataSources ++ [⟨resourceType, newName, provider, resourceType⟩] } }
    else { st with currentBlock := "data" }
  else st

/-- Backend line detection of the scanner (parser.go lines 322-332). -/
def scanBackend (st : ScanState) (trimmed : String) : ScanState :=
  if goContains trimmed "backend \"" && st.currentBlock == "terraform" then
    let parts := goFields trimmed
    if 2 ≤ parts.length then
      { st with res := { st.res with backend := some ⟨goTrimQuotes (parts.getD 1 ""), []⟩ } }
    else st
  else st

/-- Terraform block arming of the scanner (parser.go lines 334-337). -/
def scanTerraform (st : ScanState) (trimmed : String) : ScanState :=
  if goStartsWith trimmed "terraform" then { st with currentBlock := "terraform" } else st

/-- Closing-brace reset of the scanner (parser.go lines 339-343). -/
def scanClose (st : ScanState) (trimmed : String) : ScanState :=
  if trimmed == "\x7d" then
    { st with
      currentBlock := ""
      currentName := "" }
  else st

/-- Processing of one line by extractWithSimpleParsing: the source
runs the four detections sequentially on the trimmed line, after
skipping comments and blank lines. -/
def scanLine (st : ScanState) (line : String) : ScanState :=
  let trimmed := goTrimSpace line
  if goStartsWith trimmed "#" || goStartsWith trimmed "//" || trimmed == "" then st
  else scanClose (scanTerraform (scanBackend (scanResData st trimmed) trimmed) trimmed) trimmed

/-- Go extractWithSimpleParsing (parser.go lines 258-347): the fallback
scanner used when HCL parsing fails; it always succeeds. -/
def extractWithSimpleParsing (content : String) : ParseResult :=
  ((goSplitNewline content).foldl scanLine ⟨⟨[], [], none⟩, "", ""⟩).res

/-! ### Per-file parsing and directory walk (parser.go lines 64-129) -/

/-- One file visited by filepath.Walk: its base name (info.Name()), its
full path, and the outcome of os.ReadFile on it. -/
structure FileEntry where
  name : String
  path : String
  readResult : Except String String

/-- Go parseTerraformFile (parser.go lines 113-155).  hclParse is the
oracle for hclsyntax.ParseConfig: some blocks on success, none when the
diagnostics carry errors, in which case the code falls back to
extractWithSimpleParsing (which never fails). -/
def parseTerraformFile (hclParse : String → Option (List Block)) (readResult : Except String String) :
    Except String ParseResult :=
  match readResult with
  | .error e => .error e
  | .ok content =>
    match hclParse content with
    | some blocks => .ok (parseBlocks blocks)
    | none => .ok (extractWithSimpleParsing content)

/-- Go extractBackendFromState (parser.go lines 240-256), combined with
the caller check err == nil && backendInfo != nil: a read error or a
content without the substrings yields no descriptor. -/
def extractBackendFromState (readResult : Except String String) : Option BackendConfig :=
  match readResult with
  | .error _ => none
  | .ok content =>
    if goContains content "s3" || goContains content "backend" then some ⟨"s3", []⟩ else none

/-- The .tf test of the walk callback (parser.go line 84). -/
def isTfName (n : String) : Bool := goEndsWith n ".tf"

/-- The state-file test of the walk callback (parser.go line 99). -/
def isStateName (n : String) : Bool := n == "terraform.tfstate" || goEndsWith n ".tfstate"

/-- The .tf branch of the walk callback (parser.go lines 84-96): parse
the file, abort the walk with a wrapped error naming the path on
failure, otherwise append the file results and keep the first non-nil
file-level backend. -/
def walkTfStep (hclParse : String → Option (List Block)) (acc : ParseResult) (f : FileEntry) :
    Except String ParseResult :=
  if isTfName f.name then
    match parseTerraformFile hclParse f.readResult with
    | .error e => .error ("error parsing " ++ f.path ++ ": " ++ e)
    | .ok fr =>
      .ok ⟨acc.resources ++ fr.resources, acc.dataSources ++ fr.dataSources,
        if fr.backend.isSome && acc.backend.isNone then fr.backend else acc.backend⟩
  else .ok acc

/-- The state-file branch of the walk callback (parser.go lines
98-104): a successfully extracted state backend unconditionally
replaces the current one; errors are ignored. -/
def walkStateStep (acc : ParseResult) (f : FileEntry) : ParseResult :=
  if isStateName f.name then
    match extractBackendFromState f.readResult with
    | some bi => { acc with backend := some bi }
    | none => acc
  else acc

/-- The whole walk callback: the source runs both branches in sequence
(their name tests are mutually exclusive). -/
def walkStep (hclParse : String → Option (List Block)) (acc : ParseResult) (f : FileEntry) :
    Except String ParseResult :=
  match walkTfStep hclParse acc f with
  | .error e => .error e
  | .ok acc2 => .ok (walkStateStep acc2 f)

/-- Go parseTerraformFiles (parser.go lines 64-110): fold the walk
callback over the files in traversal order, aborting on the first
error. -/
def parseTerraformFiles (hclParse : String → Option (List Block)) (files : List FileEntry) :
    Except String ParseResult :=
  files.foldlM (walkStep hclParse) ⟨[], [], none⟩

/-! ### Policy synthesizer -/

/-- The read-only filter on data-source actions (generateIAMPolicy,
case-sensitive substring tests). -/
def readOnlyAction (a : String) : Bool :=
  goContains a "Describe" || goContains a "Get" || goContains a "List"

/-- Actions contributed by the resources loop of generateIAMPolicy
(lines 351-358): each aws-provider resource with a non-empty type
contributes its knowledge-base actions. -/
def resourceActions (db : PermissionMap) (resources : List Resource) : List String :=
  resources.flatMap (fun r =>
    if r.provider == "aws" && r.type != "" then getRequiredPermissions db r.type else [])

/-- Actions contributed by the data-sources loop of generateIAMPolicy
(lines 361-375): strip a leading "data.", look up, keep read-only
actions. -/
def dataActions (db : PermissionMap) (dataSources : List Resource) : List String :=
  dataSources.flatMap (fun d =>
    if d.provider == "aws" && d.type != "" then
      (getRequiredPermissions db (stripDataDot d.type)).filter readOnlyAction
    else [])

/-- The fixed state-backend action set (lines 379-382). -/
def stateBackendActions : List String :=
  ["s3:GetObject", "s3:PutObject", "s3:ListBucket", "s3:DeleteObject",
   "dynamodb:GetItem", "dynamodb:PutItem", "dynamodb:DeleteItem", "dynamodb:DescribeTable"]

/-- Backend contribution (lines 378-386): added when the flag is set or
a backend was detected. -/
def backendActions (includeStateBackend : Bool) (backend : Option BackendConfig) : List String :=
  if includeStateBackend || backend.isSome then stateBackendActions else []

/-- The sorted action list of generateIAMPolicy (lines 388-393): the
union of all contributions as a set (the Go map collapses duplicates),
sorted with sort.Strings. -/
def actionListFor (db : PermissionMap) (pr : ParseResult) (includeStateBackend : Bool) :
    List String :=
  sortStrings ((resourceActions db pr.resources ++ dataActions db pr.dataSources ++
    backendActions includeStateBackend pr.backend).dedup)

/-- Appending a verb under a service key: the content effect of
servicePrefixes[service] = append(servicePrefixes[service], v) on the
Go map, represented as an association list. -/
def addVerb : List (String × List String) → String → String → List (String × List String)
  | [], s, v => [(s, [v])]
  | e :: rest, s, v =>
    if e.1 = s then (e.1, e.2 ++ [v]) :: rest else e :: addVerb rest s v

/-- Go map lookup on the association-list representation. -/
def lookupSvc : List (String × List String) → String → Option (List String)
  | [], _ => none
  | e :: rest, s => if e.1 = s then some e.2 else lookupSvc rest s

/-- The first loop of groupActionsByService (lines 468-477): build the
service map, or fail (the Go code returns the input unchanged) as soon
as an action does not split into exactly two parts on a colon. -/
def buildServiceMap : List String → List (String × List String) → Option (List (String × List String))
  | [], m => some m
  | a :: rest, m =>
    if colonCount a = 1 then buildServiceMap rest (addVerb m (serviceOf a) (verbOf a))
    else none

/-- The body of the second loop of groupActionsByService (lines
480-489) for one visited service: a wildcard when the service has more
than 5 actions, the individual actions otherwise. -/
def contribGroup (m : List (String × List String)) (s : String) : List String :=
  match lookupSvc m s with
  | none => []
  | some verbs =>
    if 5 < verbs.length then [s ++ ":*"]
    else verbs.map (fun v => s ++ ":" ++ v)

/-- Go groupActionsByService (lines 465-492).  order is the iteration
order of the Go range loop over the service map; the source emits the
contribution of each visited service in that order and never re-sorts. -/
def groupActionsByService (actions : List String) (order : List String) : List String :=
  match buildServiceMap actions [] with
  | none => actions
  | some m => order.foldl (fun acc s => acc ++ contribGroup m s) []

/-- order is a genuine Go map iteration order for the grouping map of
actions: the map built, and order a permutation of its keys. -/
def validOrder (actions : List String) (order : List String) : Prop :=
  ∃ m, buildServiceMap actions [] = some m ∧ order.Perm (m.map Prod.fst)

/-- Go groupActionsByServiceWithActions (lines 495-507): like the
grouping map but storing full action strings, and silently skipping
malformed actions instead of abandoning the batch. -/
def buildServiceMapLP : List String → List (String × List String) → List (String × List String)
  | [], m => m
  | a :: rest, m =>
    if colonCount a = 1 then buildServiceMapLP rest (addVerb m (serviceOf a) a)
    else buildServiceMapLP rest m

/-- The service to ARN pattern table of getResourceARNForService
(lines 510-585). -/
def arnTable : List (String × String) :=
  [("ec2", "arn:aws:ec2:*:*:*"),
   ("s3", "arn:aws:s3:::*"),
   ("iam", "arn:aws:iam::*:*"),
   ("rds", "arn:aws:rds:*:*:*"),
   ("lambda", "arn:aws:lambda:*:*:*"),
   ("apigateway", "arn:aws:apigateway:*::*"),
   ("sns", "arn:aws:sns:*:*:*"),
   ("sqs", "arn:aws:sqs:*:*:*"),
   ("dynamodb", "arn:aws:dynamodb:*:*:*"),
   ("logs", "arn:aws:logs:*:*:*"),
   ("cloudwatch", "arn:aws:cloudwatch:*:*:*"),
   ("autoscaling", "arn:aws:autoscaling:*:*:*"),
   ("application-autoscaling", "arn:aws:application-autoscaling:*:*:*"),
   ("route53", "arn:aws:route53:::*"),
   ("cloudfront", "arn:aws:cloudfront:::*"),
   ("elasticloadbalancing", "arn:aws:elasticloadbalancing:*:*:*"),
   ("elasticfilesystem", "arn:aws:elasticfilesystem:*:*:*"),
   ("secretsmanager", "arn:aws:secretsmanager:*:*:*"),
   ("kms", "arn:aws:kms:*:*:*"),
   ("ecr", "arn:aws:ecr:*:*:repository/*"),
   ("ecs", "arn:aws:ecs:*:*:*"),
   ("eks", "arn:aws:eks:*:*:cluster/*"),
   ("events", "arn:aws:events:*:*:rule/*"),
   ("codepipeline", "arn:aws:codepipeline:*:*:*"),
   ("codedeploy", "arn:aws:codedeploy:*:*:*"),
   ("codebuild", "arn:aws:codebuild:*:*:project/*"),
   ("codecommit", "arn:aws:codecommit:*:*:*"),
   ("glue", "arn:aws:glue:*:*:*"),
   ("redshift", "arn:aws:redshift:*:*:cluster:*"),
   ("elasticache", "arn:aws:elasticache:*:*:*"),
   ("es", "arn:aws:es:*:*:domain/*"),
   ("kinesis", "arn:aws:kinesis:*:*:stream/*"),
   ("firehose", "arn:aws:firehose:*:*:deliverystream/*"),
   ("athena", "arn:aws:athena:*:*:workgroup/*"),
   ("datasync", "arn:aws:datasync:*:*:*"),
   ("backup", "arn:aws:backup:*:*:*"),
   ("batch", "arn:aws:batch:*:*:*"),
   ("guardduty", "arn:aws:guardduty:*:*:detector/*"),
   ("securityhub", "arn:aws:securityhub:*:*:hub/default"),
   ("inspector", "arn:aws:inspector:*:*:*"),
   ("config", "arn:aws:config:*:*:*"),
   ("waf", "arn:aws:waf:::*"),
   ("waf-regional", "arn:aws:waf-regional:*:*:*"),
   ("wafv2", "arn:aws:wafv2:*:*:*"),
   ("shield", "arn:aws:shield:::*"),
   ("ssm", "arn:aws:ssm:*:*:*"),
   ("transfer", "arn:aws:transfer:*:*:server/*"),
   ("mq", "arn:aws:mq:*:*:broker/*"),
   ("iot", "arn:aws:iot:*:*:*"),
   ("mobiletargeting", "arn:aws:mobiletargeting:*:*:apps/*"),
   ("mediaconvert", "arn:aws:mediaconvert:*:*:queues/*"),
   ("mediastore", "arn:aws:mediastore:*:*:container/*"),
   ("storagegateway", "arn:aws:storagegateway:*:*:gateway/*"),
   ("servicediscovery", "arn:aws:servicediscovery:*:*:*"),
   ("appmesh", "arn:aws:appmesh:*:*:mesh/*"),
   ("states", "arn:aws:states:*:*:stateMachine:*"),
   ("network-firewall", "arn:aws:network-firewall:*:*:*"),
   ("amplify", "arn:aws:amplify:*:*:*"),
   ("appsync", "arn:aws:appsync:*:*:apis/*"),
   ("cognito-idp", "arn:aws:cognito-idp:*:*:userpool/*"),
   ("cognito-identity", "arn:aws:cognito-identity:*:*:identitypool/*"),
   ("fsx", "arn:aws:fsx:*:*:file-system/*"),
   ("qldb", "arn:aws:qldb:*:*:*"),
   ("timestream", "arn:aws:timestream:*:*:*"),
   ("memorydb", "arn:aws:memorydb:*:*:cluster/*")]

/-- Go getResourceARNForService (lines 510-585). -/
def getResourceARNForService (service : String) : String :=
  match arnTable.find? (fun e => e.1 == service) with
  | some e => e.2
  | none => "*"

/-- Go struct IAMStatement.  Effect and Resource are strings and Action
is a string list in every statement the generator builds. -/
structure IAMStatement where
  effect : String
  actions : List String
  resource : String
deriving DecidableEq

/-- Go struct IAMPolicy. -/
structure IAMPolicy where
  version : String
  statements : List IAMStatement
deriving DecidableEq

/-- The sort.Slice comparator of the least-privilege branch (lines
416-424): strict order on the first action, false when either list is
empty. -/
def stmtLt (s1 s2 : IAMStatement) : Bool :=
  match s1.actions, s2.actions with
  | a :: _, b :: _ => ltStr a b
  | _, _ => false

/-- The deterministic outcome of sort.Slice with comparator stmtLt;
first actions are distinct across statements, so any correct sort
produces this arrangement. -/
def sortStatements (l : List IAMStatement) : List IAMStatement :=
  sortLe (fun x y => !(stmtLt y x)) l

/-- One visited service of the least-privilege statements loop (lines
406-415). -/
def contribLP (m : List (String × List String)) (s : String) : List IAMStatement :=
  match lookupSvc m s with
  | none => []
  | some acts => [⟨"Allow", acts, getResourceARNForService s⟩]

/-- The least-privilege statement list (lines 404-424): one statement
per service of the grouped map, visited in Go map iteration order,
then sorted by first action. -/
def lpStatements (actions : List String) (order : List String) : List IAMStatement :=
  sortStatements (order.foldl (fun acc s => acc ++ contribLP (buildServiceMapLP actions []) s) [])

/-- Go generateIAMPolicy up to the structured policy (lines 347-438),
before encoding.  order is the Go map iteration order used by the
branch taken (the grouping map when leastPrivilege is false, the
grouped-by-service map otherwise). -/
def generateIAMPolicy (db : PermissionMap) (pr : ParseResult) (includeStateBackend : Bool)
    (leastPrivilege : Bool) (order : List String) : IAMPolicy :=
  let actionList := actionListFor db pr includeStateBackend
  if leastPrivilege then
    ⟨"2012-10-17", lpStatements actionList order⟩
  else
    ⟨"2012-10-17", [⟨"Allow", groupActionsByService actionList order, "*"⟩]⟩

/-! ### JSON encoding (json.MarshalIndent(policy, "", "  ")) -/

/-- JSON string literal; no escaping is performed, faithful for the
action and ARN strings of this program, which contain no quote,
backslash or control characters. -/
def jsonQ (s : String) : String := "\"" ++ s ++ "\""

/-- Join a list of strings with a separator. -/
def joinWith (sep : String) : List String → String
  | [] => ""
  | [x] => x
  | x :: y :: ys => x ++ sep ++ joinWith sep (y :: ys)

/-- MarshalIndent rendering of a string array whose opening bracket
sits on a line indented by ind. -/
def encodeStrList (ind : String) (xs : List String) : String :=
  match xs with
  | [] => "[]"
  | _ => "[\n" ++ joinWith ",\n" (xs.map (fun x => ind ++ "  " ++ jsonQ x)) ++ "\n" ++ ind ++ "]"

/-- MarshalIndent rendering of one statement object inside the
Statement array. -/
def encodeStatement (st : IAMStatement) : String :=
  "    \x7b\n      " ++ jsonQ "Effect" ++ ": " ++ jsonQ st.effect ++ ",\n      " ++
    jsonQ "Action" ++ ": " ++ encodeStrList "      " st.actions ++ ",\n      " ++
    jsonQ "Resource" ++ ": " ++ jsonQ st.resource ++ "\n    \x7d"

/-- MarshalIndent rendering of the Statement array; a run that emits no
statements leaves the Go slice nil, which marshals as null. -/
def encodeStatements (sts : List IAMStatement) : String :=
  match sts with
  | [] => "null"
  | _ => "[\n" ++ joinWith ",\n" (sts.map encodeStatement) ++ "\n  ]"

/-- json.MarshalIndent(policy, "", "  ") on the policy structure: the
JSON text generateIAMPolicy returns for the json format. -/
def encodePolicyJSON (p : IAMPolicy) : String :=
  "\x7b\n  " ++ jsonQ "Version" ++ ": " ++ jsonQ p.version ++ ",\n  " ++
    jsonQ "Statement" ++ ": " ++ encodeStatements p.statements ++ "\n\x7d"

/-! ### Spec-style auxiliary descriptions used in theorem statements -/

/-- The verbs that the actions of one service contribute, read directly
off the action list (specification-style description, to be compared
with the map the code builds). -/
def verbsOf (actions : List String) (s : String) : List String :=
  actions.filterMap (fun a => if serviceOf a = s then some (verbOf a) else none)

/-- Sortedness in the byte-wise lexicographic string order. -/
def sortedLeStr (l : List String) : Prop := l.Pairwise (fun a b => leStr a b = true)

/-- The content a run of map appends leaves under a key, described
without the intermediate map: used to characterize the maps the
grouping loops build. -/
def optJoin : Option (List String) → List String → Option (List String)
  | some us, vs => some (us ++ vs)
  | none, vs => if vs.isEmpty then none else some vs

/-- A sample malformed-file content recovering a google resource via
the fallback scanner. -/
def googleSample : String := "resource \"google_storage_bucket\" \"b\" \x7b\n\x7d"

/-- A shared example database: two resource types mapping to one action
in two different services. -/
def dbTwoServices : PermissionMap :=
  [("aws_instance", ["ec2:RunInstances"]), ("aws_s3_bucket", ["s3:GetObject"])]

/-- A shared example parse result declaring one instance and one
bucket. -/
def prTwoServices : ParseResult :=
  ⟨[⟨"aws_instance", "web", "aws", "aws_instance"⟩,
    ⟨"aws_s3_bucket", "b", "aws", "aws_s3_bucket"⟩], [], none⟩

/-! ### General lemmas -/

/-- Inserting into a sorted list is a permutation of consing. -/
theorem insertLe_perm {α : Type} (le : α → α → Bool) (a : α) (l : List α) :
    (insertLe le a l).Perm (a :: l) := by
  induction l with
  | nil => exact List.Perm.refl _
  | cons b bs ih =>
    simp only [insertLe]
    split
    · exact List.Perm.refl _
    · exact (ih.cons b).trans (List.Perm.swap a b bs)

/-- An insertion sort permutes its input. -/
theorem sortLe_perm {α : Type} (le : α → α → Bool) (l : List α) :
    (sortLe le l).Perm l := by
  induction l with
  | nil => exact List.Perm.refl _
  | cons a as ih => exact (insertLe_perm le a (sortLe le as)).trans (ih.cons a)

/-- Folding list appends equals an initial segment followed by the
flattened contributions. -/
theorem foldl_append_flatMap {α β : Type} (g : α → List β) :
    ∀ (order : List α) (init : List β),
      order.foldl (fun acc s => acc ++ g s) init = init ++ order.flatMap g := by
  intro order
  induction order with
  | nil => intro init; simp
  | cons a rest ih => intro init; simp [ih, List.append_assoc]

/-- Flattening empty contributions yields the empty list. -/
theorem flatMap_const_nil {α β : Type} (l : List α) :
    l.flatMap (fun _ => ([] : List β)) = [] := by
  induction l with
  | nil => rfl
  | cons a rest ih => simp [ih]

/-! ### Lemmas on the grouping maps -/

/-- The lookup content after one map append. -/
theorem lookupSvc_addVerb (m : List (String × List String)) (s v s2 : String) :
    lookupSvc (addVerb m s v) s2 =
      if s2 = s then some (((lookupSvc m s2).getD []) ++ [v]) else lookupSvc m s2 := by
  induction m with
  | nil =>
    by_cases h : s2 = s
    · subst h; simp [addVerb, lookupSvc]
    · simp only [addVerb, lookupSvc]
      rw [if_neg (fun hh : s = s2 => h hh.symm), if_neg h]
  | cons e rest ih =>
    by_cases he : e.1 = s
    · simp only [addVerb, if_pos he]
      by_cases h2 : s2 = s
      · subst h2
        simp [lookupSvc, he]
      · have hne : ¬ e.1 = s2 := fun hh => h2 (hh ▸ he.symm ▸ rfl)
        simp [lookupSvc, hne, h2, fun hh : e.1 = s2 => hne hh]
    · simp only [addVerb, if_neg he]
      by_cases h1 : e.1 = s2
      · have h2 : ¬ s2 = s := fun hh => he (h1.trans hh)
        simp [lookupSvc, h1, h2]
      · simp [lookupSvc, h1, ih]

/-- optJoin absorbs one appended element. -/
theorem optJoin_snoc (o : Option (List String)) (v : String) (vs : List String) :
    optJoin (some ((o.getD []) ++ [v])) vs = optJoin o (v :: vs) := by
  cases o <;> simp [optJoin]

/-- Unfolding verbsOf on a cons. -/
theorem verbsOf_cons (a : String) (rest : List String) (s : String) :
    verbsOf (a :: rest) s =
      if serviceOf a = s then verbOf a :: verbsOf rest s else verbsOf rest s := by
  simp only [verbsOf, List.filterMap_cons]
  split <;> simp_all

/-- The map the first grouping loop builds holds, under each service
key, exactly the verbs that the actions of that service contribute, in
input order. -/
theorem buildServiceMap_lookup :
    ∀ (actions : List String) (m m2 : List (String × List String)),
      buildServiceMap actions m = some m2 →
      ∀ s, lookupSvc m2 s = optJoin (lookupSvc m s) (verbsOf actions s) := by
  intro actions
  induction actions with
  | nil =>
    intro m m2 h s
    simp only [buildServiceMap, Option.some.injEq] at h
    subst h
    cases hl : lookupSvc m s <;> simp [optJoin, verbsOf]
  | cons a rest ih =>
    intro m m2 h s
    simp only [buildServiceMap] at h
    split at h
    · have hrec := ih _ _ h s
      rw [hrec, lookupSvc_addVerb, verbsOf_cons]
      by_cases hs : serviceOf a = s
      · rw [if_pos hs.symm, if_pos hs, optJoin_snoc]
      · rw [if_neg (fun hh => hs hh.symm), if_neg hs]
    · exact absurd h (by simp)

/-- Well-formed action lists make the first grouping loop succeed. -/
theorem buildServiceMap_isSome :
    ∀ (actions : List String) (m : List (String × List String)),
      (∀ a ∈ actions, colonCount a = 1) →
      ∃ m2, buildServiceMap actions m = some m2 := by
  intro actions
  induction actions with
  | nil => intro m _; exact ⟨m, rfl⟩
  | cons a rest ih =>
    intro m h
    have ha : colonCount a = 1 := h a (List.mem_cons_self a rest)
    simp only [buildServiceMap, if_pos ha]
    exact ih _ (fun b hb => h b (List.mem_cons_of_mem a hb))

/-- A single malformed action makes the first grouping loop fail. -/
theorem buildServiceMap_none :
    ∀ (actions : List String) (m : List (String × List String)),
      (∃ a ∈ actions, colonCount a ≠ 1) →
      buildServiceMap actions m = none := by
  intro actions
  induction actions with
  | nil => intro m h; obtain ⟨a, ha, _⟩ := h; exact absurd ha (List.not_mem_nil a)
  | cons x rest ih =>
    intro m h
    obtain ⟨a, ha, hne⟩ := h
    simp only [buildServiceMap]
    split
    · rcases List.mem_cons.1 ha with h1 | h1
      · exact absurd (h1 ▸ hne) (by simp_all)
      · exact ih _ ⟨a, h1, hne⟩
    · rfl

/-- A character list with exactly one colon is its prefix before the
colon, the colon, and its suffix after the colon. -/
theorem takeWhile_colon_reconstruct :
    ∀ (l : List Char), l.count ':' = 1 →
      l.takeWhile (fun c => c != ':') ++ ':' :: ((l.dropWhile (fun c => c != ':')).drop 1) = l := by
  intro l
  induction l with
  | nil => intro h; simp at h
  | cons c cs ih =>
    intro h
    by_cases hc : c = ':'
    · subst hc
      simp [List.takeWhile_cons, List.dropWhile_cons]
    · have hcs : cs.count ':' = 1 := by
        simpa [List.count_cons, hc] using h
      have hb : (c != ':') = true := by simp [hc]
      simp only [List.takeWhile_cons, List.dropWhile_cons, hb, if_true, List.cons_append]
      rw [ih hcs]

/-- A well-formed action identifier is rebuilt from its service and
verb. -/
theorem serviceVerb_reconstruct (a : String) (h : colonCount a = 1) :
    serviceOf a ++ ":" ++ verbOf a = a := by
  apply String.ext
  rw [String.data_append, String.data_append]
  have hcolon : (":" : String).data = [':'] := rfl
  rw [hcolon]
  show (a.data.takeWhile (fun c => c != ':') ++ [':']) ++
      ((a.data.dropWhile (fun c => c != ':')).drop 1) = a.data
  rw [List.append_assoc, List.singleton_append]
  exact takeWhile_colon_reconstruct a.data h

/-- Per-service verb lists of a deduplicated well-formed action list
are themselves deduplicated. -/
theorem verbsOf_nodup :
    ∀ (actions : List String), (∀ a ∈ actions, colonCount a = 1) → actions.Nodup →
      ∀ s, (verbsOf actions s).Nodup := by
  intro actions
  induction actions with
  | nil => intro _ _ s; simp [verbsOf]
  | cons a rest ih =>
    intro hwf hnd s
    have hwa : colonCount a = 1 := hwf a (List.mem_cons_self a rest)
    have hwr : ∀ b ∈ rest, colonCount b = 1 := fun b hb => hwf b (List.mem_cons_of_mem a hb)
    have hndr : rest.Nodup := (List.nodup_cons.1 hnd).2
    have hna : a ∉ rest := (List.nodup_cons.1 hnd).1
    rw [verbsOf_cons]
    split
    · rename_i hs
      refine List.nodup_cons.2 ⟨?_, ih hwr hndr s⟩
      intro hmem
      obtain ⟨b, hb, hfb⟩ := List.mem_filterMap.1 hmem
      have hsb : serviceOf b = s ∧ verbOf b = verbOf a := by
        by_cases hbs : serviceOf b = s
        · refine ⟨hbs, ?_⟩
          rw [if_pos hbs] at hfb
          exact Option.some.inj hfb
        · rw [if_neg hbs] at hfb; cases hfb
      have hab : a = b := by
        have ha2 := serviceVerb_reconstruct a hwa
        have hb2 := serviceVerb_reconstruct b (hwr b hb)
        rw [← ha2, ← hb2, hs, hsb.1, hsb.2]
      exact hna (hab ▸ hb)
    · exact ih hwr hndr s

/-! ### Claims C5 and C7 -/

/-- Claim C5: in non-least-privilege grouping, for every service of the
deduplicated action set, a service contributing more than 5 distinct
actions is replaced by the single wildcard entry service:*, and a
service contributing 5 or fewer keeps every individual service:verb
action; the output is exactly the concatenation of these per-service
contributions over the visited services. -/
theorem claim5_wildcardThreshold (actions order : List String)
    (hwf : ∀ a ∈ actions, colonCount a = 1) :
    groupActionsByService actions order
        = order.flatMap (fun s =>
            if 5 < (verbsOf actions s).length then [s ++ ":*"]
            else (verbsOf actions s).map (fun v => s ++ ":" ++ v))
      ∧ (actions.Nodup → ∀ s, (verbsOf actions s).Nodup) := by
  constructor
  · obtain ⟨m, hm⟩ := buildServiceMap_isSome actions [] hwf
    simp only [groupActionsByService, hm]
    rw [foldl_append_flatMap]
    rw [List.nil_append]
    apply congrArg (List.flatMap order)
    funext s
    have hlook : lookupSvc m s = optJoin none (verbsOf actions s) := by
      have := buildServiceMap_lookup actions [] m hm s
      simpa [lookupSvc] using this
    cases hv : verbsOf actions s with
    | nil =>
      rw [hv] at hlook
      simp only [optJoin, List.isEmpty_nil, if_pos rfl] at hlook
      simp [contribGroup, hlook]
    | cons v vs =>
      rw [hv] at hlook
      simp only [optJoin, List.isEmpty_cons] at hlook
      simp [contribGroup, hlook]
  · intro hnd s
    exact verbsOf_nodup actions hwf hnd s

/-- Witness for claim C5: a service with exactly 6 distinct actions
collapses to a wildcard and a service with exactly 5 keeps all of
them. -/
theorem claim5_witness :
    groupActionsByService
        ["a:1", "a:2", "a:3", "a:4", "a:5", "a:6", "b:1", "b:2", "b:3", "b:4", "b:5"]
        ["a", "b"]
      = (["a", "b"]).flatMap (fun s =>
          if 5 < (verbsOf ["a:1", "a:2", "a:3", "a:4", "a:5", "a:6", "b:1", "b:2", "b:3", "b:4", "b:5"] s).length
          then [s ++ ":*"]
          else (verbsOf ["a:1", "a:2", "a:3", "a:4", "a:5", "a:6", "b:1", "b:2", "b:3", "b:4", "b:5"] s).map
            (fun v => s ++ ":" ++ v)) :=
  (claim5_wildcardThreshold
    ["a:1", "a:2", "a:3", "a:4", "a:5", "a:6", "b:1", "b:2", "b:3", "b:4", "b:5"]
    ["a", "b"] (by decide)).1

/-- Claim C7: a single action identifier without exactly one colon in
the batch makes non-least-privilege grouping return the input list
unmodified, with no collapsing and no reordering at all. -/
theorem claim7_degenerateFallback (actions order : List String)
    (h : ∃ a ∈ actions, colonCount a ≠ 1) :
    groupActionsByService actions order = actions := by
  simp [groupActionsByService, buildServiceMap_none actions [] h]

/-- Witness for claim C7: a malformed entry makes grouping return the
batch unchanged. -/
theorem claim7_witness :
    groupActionsByService ["s3:GetObject", "sts"] ["s3"] = ["s3:GetObject", "sts"] :=
  claim7_degenerateFallback ["s3:GetObject", "sts"] ["s3"]
    ⟨"sts", by decide, by decide⟩

/-! ### Claims C1 and C2: Go map iteration order leaks into the output -/

/-- Claim C1 (refuted, code bug): the non-least-privilege single
statement is claimed to carry its actions in strictly lexicographic
order for every input; but groupActionsByService emits per-service
groups in Go map iteration order without re-sorting, so under the
genuine iteration order that visits s3 before ec2 the emitted action
list is not even weakly sorted. -/
theorem claim1_groupingBreaksSortedness :
    validOrder (actionListFor dbTwoServices prTwoServices false) ["s3", "ec2"]
    ∧ (generateIAMPolicy dbTwoServices prTwoServices false false ["s3", "ec2"]).statements
        = [⟨"Allow", ["s3:GetObject", "ec2:RunInstances"], "*"⟩]
    ∧ ¬ sortedLeStr ["s3:GetObject", "ec2:RunInstances"] := by
  refine ⟨⟨[("ec2", ["RunInstances"]), ("s3", ["GetObject"])], by decide, by decide⟩, by decide, ?_⟩
  simp only [sortedLeStr]
  decide

/-- Claim C2 (refuted, code bug): synthesizing twice from the same
ParseResult and flags is claimed to give byte-identical output; but two
genuine map iteration orders of the same grouping map give two
different JSON texts for the same input and flags
(includeStateBackend = false, format = json, leastPrivilege = false). -/
theorem claim2_groupingBreaksIdempotence :
    validOrder (actionListFor dbTwoServices prTwoServices false) ["ec2", "s3"]
    ∧ validOrder (actionListFor dbTwoServices prTwoServices false) ["s3", "ec2"]
    ∧ encodePolicyJSON (generateIAMPolicy dbTwoServices prTwoServices false false ["ec2", "s3"])
        ≠ encodePolicyJSON (generateIAMPolicy dbTwoServices prTwoServices false false ["s3", "ec2"]) :=
  ⟨⟨[("ec2", ["RunInstances"]), ("s3", ["GetObject"])], by decide, by decide⟩,
   ⟨[("ec2", ["RunInstances"]), ("s3", ["GetObject"])], by decide, by decide⟩,
   by decide⟩

/-! ### Lemmas on the least-privilege grouping map -/

/-- Every action stored in the least-privilege grouping map is
well-formed and comes from the input batch (or was already in the
accumulator map). -/
theorem buildServiceMapLP_mem :
    ∀ (actions : List String) (m : List (String × List String)) (s : String)
      (vs : List String) (a : String),
      lookupSvc (buildServiceMapLP actions m) s = some vs → a ∈ vs →
      (colonCount a = 1 ∧ a ∈ actions) ∨ ∃ vs0, lookupSvc m s = some vs0 ∧ a ∈ vs0 := by
  intro actions
  induction actions with
  | nil => intro m s vs a h ha; exact Or.inr ⟨vs, h, ha⟩
  | cons x rest ih =>
    intro m s vs a h ha
    simp only [buildServiceMapLP] at h
    split at h
    · rename_i hx
      rcases ih _ _ _ _ h ha with h1 | ⟨vs0, hl, hv⟩
      · exact Or.inl ⟨h1.1, List.mem_cons_of_mem x h1.2⟩
      · rw [lookupSvc_addVerb] at hl
        by_cases hs : s = serviceOf x
        · rw [if_pos hs] at hl
          have hv2 := Option.some.inj hl ▸ hv
          rcases List.mem_append.1 hv2 with h2 | h2
          · cases hget : lookupSvc m s with
            | none => rw [hget] at h2; simp at h2
            | some us =>
              rw [hget] at h2
              exact Or.inr ⟨us, rfl, by simpa using h2⟩
          · have hax : a = x := by simpa using h2
            exact Or.inl ⟨hax ▸ hx, hax ▸ List.mem_cons_self x rest⟩
        · rw [if_neg hs] at hl
          exact Or.inr ⟨vs0, hl, hv⟩
    · rcases ih _ _ _ _ h ha with h1 | h1
      · exact Or.inl ⟨h1.1, List.mem_cons_of_mem x h1.2⟩
      · exact Or.inr h1

/-- A batch of only malformed actions leaves the least-privilege
grouping map untouched. -/
theorem buildServiceMapLP_allMalformed :
    ∀ (actions : List String) (m : List (String × List String)),
      (∀ a ∈ actions, colonCount a ≠ 1) → buildServiceMapLP actions m = m := by
  intro actions
  induction actions with
  | nil => intro m _; rfl
  | cons x rest ih =>
    intro m h
    have hx : colonCount x ≠ 1 := h x (List.mem_cons_self x rest)
    simp only [buildServiceMapLP, if_neg hx]
    exact ih _ (fun b hb => h b (List.mem_cons_of_mem x hb))

/-! ### Claim C10 -/

/-- Claim C10: in least-privilege mode, every action in every emitted
statement splits into exactly two parts on a colon and comes from the
input action set, so malformed identifiers are silently dropped; and an
action set containing only malformed identifiers yields a policy with
an empty statements list (no whole-batch fallback in this mode). -/
theorem claim10_lpDropsMalformed :
    (∀ (actions order : List String), ∀ st ∈ lpStatements actions order,
        ∀ a ∈ st.actions, colonCount a = 1 ∧ a ∈ actions)
    ∧ (∀ (db : PermissionMap) (pr : ParseResult) (includeStateBackend : Bool)
        (order : List String),
        (∀ a ∈ actionListFor db pr includeStateBackend, colonCount a ≠ 1) →
        (generateIAMPolicy db pr includeStateBackend true order).statements = []) := by
  constructor
  · intro actions order st hst a ha
    have hpre : st ∈ order.foldl
        (fun acc s => acc ++ contribLP (buildServiceMapLP actions []) s) [] := by
      have hperm := sortLe_perm (fun x y => !(stmtLt y x))
        (order.foldl (fun acc s => acc ++ contribLP (buildServiceMapLP actions []) s) [])
      exact hperm.mem_iff.1 hst
    rw [foldl_append_flatMap, List.nil_append] at hpre
    obtain ⟨s, _, hc⟩ := List.mem_flatMap.1 hpre
    simp only [contribLP] at hc
    cases hl : lookupSvc (buildServiceMapLP actions []) s with
    | none => rw [hl] at hc; simp at hc
    | some acts =>
      rw [hl] at hc
      have hst2 : st = ⟨"Allow", acts, getResourceARNForService s⟩ := by simpa using hc
      have ha2 : a ∈ acts := by rw [hst2] at ha; exact ha
      rcases buildServiceMapLP_mem actions [] s acts a hl ha2 with h1 | ⟨vs0, hl0, _⟩
      · exact h1
      · simp [lookupSvc] at hl0
  · intro db pr isb order hmal
    have hmap : buildServiceMapLP (actionListFor db pr isb) [] = [] :=
      buildServiceMapLP_allMalformed _ _ hmal
    show lpStatements (actionListFor db pr isb) order = []
    simp only [lpStatements, hmap]
    rw [foldl_append_flatMap, List.nil_append]
    have : order.flatMap (fun s => contribLP [] s) = [] := by
      have h0 : (fun s => contribLP [] s) = fun _ => ([] : List IAMStatement) := by
        funext s; simp [contribLP, lookupSvc]
      rw [h0, flatMap_const_nil]
    rw [this]
    rfl

/-- Witness for claim C10: an action set of only malformed identifiers
yields an empty statements list, and a well-formed action survives into
the emitted statement. -/
theorem claim10_witness :
    (colonCount "s3:GetObject" = 1 ∧ "s3:GetObject" ∈ ["s3:GetObject"])
    ∧ (generateIAMPolicy [("aws_foo", ["badaction", "a:b:c"])]
        ⟨[⟨"aws_foo", "x", "aws", "aws_foo"⟩], [], none⟩ false true []).statements = [] :=
  ⟨claim10_lpDropsMalformed.1 ["s3:GetObject"] ["s3"]
      ⟨"Allow", ["s3:GetObject"], "arn:aws:s3:::*"⟩ (by decide) "s3:GetObject" (by decide),
   claim10_lpDropsMalformed.2 [("aws_foo", ["badaction", "a:b:c"])]
      ⟨[⟨"aws_foo", "x", "aws", "aws_foo"⟩], [], none⟩ false [] (by decide)⟩

/-! ### Claim C6 -/

/-- Claim C6: the actions the data-source loop contributes are exactly
those obtained by stripping a literal data. prefix from the type of a
data reference, looking up the knowledge base by the resulting type,
and keeping the actions containing the case-sensitive substring
Describe, Get or List; in particular a data reference of type
data.aws_s3_bucket whose knowledge-base entry is
s3:GetObject, s3:CreateBucket contributes only s3:GetObject. -/
theorem claim6_readOnlyFilter :
    (∀ (db : PermissionMap) (ds : List Resource) (a : String),
        a ∈ dataActions db ds ↔
          ∃ d ∈ ds, d.provider = "aws" ∧ d.type ≠ "" ∧
            a ∈ getRequiredPermissions db (stripDataDot d.type) ∧ readOnlyAction a = true)
    ∧ dataActions [("aws_s3_bucket", ["s3:GetObject", "s3:CreateBucket"])]
        [⟨"data.aws_s3_bucket", "b", "aws", "data.aws_s3_bucket"⟩] = ["s3:GetObject"] := by
  constructor
  · intro db ds a
    simp only [dataActions, List.mem_flatMap]
    constructor
    · rintro ⟨d, hd, hmem⟩
      by_cases hc : (d.provider == "aws" && d.type != "") = true
      · rw [if_pos hc] at hmem
        have h2 := List.mem_filter.1 hmem
        have h3 := Bool.and_eq_true_iff.1 hc
        refine ⟨d, hd, ?_, ?_, h2.1, h2.2⟩
        · exact beq_iff_eq.1 h3.1
        · exact bne_iff_ne.1 h3.2
      · rw [if_neg hc] at hmem
        simp at hmem
    · rintro ⟨d, hd, hprov, htype, hmem, hro⟩
      refine ⟨d, hd, ?_⟩
      rw [if_pos (by simp [hprov, htype])]
      exact List.mem_filter.2 ⟨hmem, hro⟩
  · decide

/-- Witness for claim C6: the membership characterization instantiated
at the read-only example. -/
theorem claim6_witness :
    "s3:GetObject" ∈ dataActions [("aws_s3_bucket", ["s3:GetObject", "s3:CreateBucket"])]
        [⟨"data.aws_s3_bucket", "b", "aws", "data.aws_s3_bucket"⟩] ↔
      ∃ d ∈ [(⟨"data.aws_s3_bucket", "b", "aws", "data.aws_s3_bucket"⟩ : Resource)],
        d.provider = "aws" ∧ d.type ≠ "" ∧
          "s3:GetObject" ∈ getRequiredPermissions
            [("aws_s3_bucket", ["s3:GetObject", "s3:CreateBucket"])] (stripDataDot d.type) ∧
          readOnlyAction "s3:GetObject" = true :=
  claim6_readOnlyFilter.1 [("aws_s3_bucket", ["s3:GetObject", "s3:CreateBucket"])]
    [⟨"data.aws_s3_bucket", "b", "aws", "data.aws_s3_bucket"⟩] "s3:GetObject"

/-! ### Claim C4: backend precedence among block-derived descriptors -/

/-- Counterexample to claim C4 as stated: a file whose block list holds
two terraform blocks with backend sub-blocks; the first block alone
yields the s3 descriptor, yet with both blocks present the later gcs
discovery has replaced it. -/
theorem claim4_cex_laterBlockOverwrites :
    (parseBlocks [⟨"terraform", [], [⟨"backend", ["s3"], []⟩]⟩]).backend = some ⟨"s3", []⟩
    ∧ (parseBlocks [⟨"terraform", [], [⟨"backend", ["s3"], []⟩]⟩,
        ⟨"terraform", [], [⟨"backend", ["gcs"], []⟩]⟩]).backend = some ⟨"gcs", []⟩ := by
  constructor <;> decide

/-- Claim C4 as amended: across files the first file-level non-empty
backend wins and later files never replace it (in the absence of
state-file scans), but within a single file each terraform block with a
backend sub-block overwrites the file-level descriptor, so the last
such block in a file wins. -/
theorem claim4_amended_backendPrecedence :
    (∀ (bs : List Block) (b : Block) (bc : BackendConfig),
        b.type = "terraform" → extractBackendFromBlock b = some bc →
        (parseBlocks (bs ++ [b])).backend = some bc)
    ∧ (∀ (hclParse : String → Option (List Block)) (files : List FileEntry)
        (acc : ParseResult) (bc : BackendConfig),
        acc.backend = some bc → (∀ f ∈ files, isStateName f.name = false) →
        ∀ r, files.foldlM (walkStep hclParse) acc = Except.ok r → r.backend = some bc) := by
  constructor
  · intro bs b bc htype hext
    have h1 : (b.type == "resource") = false := by rw [htype]; decide
    have h2 : (b.type == "data") = false := by rw [htype]; decide
    have h3 : (b.type == "terraform") = true := by rw [htype]; decide
    simp only [parseBlocks, List.foldl_append, List.foldl_cons, List.foldl_nil]
    simp [applyBlock, h1, h2, h3, hext]
  · intro hclParse files
    induction files with
    | nil =>
      intro acc bc hacc _ r hr
      rw [List.foldlM_nil] at hr
      have h2 : acc = r := Except.ok.inj hr
      rw [← h2]
      exact hacc
    | cons f rest ih =>
      intro acc bc hacc hst r hr
      have hstf : isStateName f.name = false := hst f (List.mem_cons_self f rest)
      have hstr : ∀ g ∈ rest, isStateName g.name = false :=
        fun g hg => hst g (List.mem_cons_of_mem f hg)
      rw [List.foldlM_cons] at hr
      cases htf : walkStep hclParse acc f with
      | error e =>
        rw [htf] at hr
        cases hr
      | ok acc2 =>
        rw [htf] at hr
        have hbind : (Except.ok acc2 : Except String ParseResult) >>=
            (fun x => List.foldlM (walkStep hclParse) x rest)
              = List.foldlM (walkStep hclParse) acc2 rest := rfl
        rw [hbind] at hr
        have hacc2 : acc2.backend = some bc := by
          revert htf
          simp only [walkStep, walkTfStep]
          by_cases htn : isTfName f.name = true
          · rw [if_pos htn]
            cases hp : parseTerraformFile hclParse f.readResult with
            | error e => intro h; cases h
            | ok fr =>
              intro h
              have h2 := Except.ok.inj h
              rw [← h2]
              simp only [walkStateStep, hstf, Bool.false_eq_true, if_false]
              simp [hacc]
          · rw [if_neg htn]
            intro h
            have h2 := Except.ok.inj h
            rw [← h2]
            simp only [walkStateStep, hstf, Bool.false_eq_true, if_false]
            exact hacc
        exact ih acc2 bc hacc2 hstr r hr

/-- Witness for claim C4 as amended: the last terraform block of a file
determines the descriptor, and an already-set s3 backend survives a
later file carrying a gcs backend block. -/
theorem claim4_witness :
    (parseBlocks ([] ++ [⟨"terraform", [], [⟨"backend", ["s3"], [("bucket", some "b")]⟩]⟩])).backend
        = some ⟨"s3", [("bucket", "b")]⟩
    ∧ ((⟨[], [], some ⟨"s3", []⟩⟩ : ParseResult).backend = some ⟨"s3", []⟩ →
        ∀ r, [(⟨"b.tf", "d/b.tf", Except.ok "terraform gcs"⟩ : FileEntry)].foldlM
            (walkStep (fun _ => some [⟨"terraform", [], [⟨"backend", ["gcs"], []⟩]⟩]))
            ⟨[], [], some ⟨"s3", []⟩⟩
          = Except.ok r → r.backend = some ⟨"s3", []⟩) :=
  ⟨claim4_amended_backendPrecedence.1 [] _ _ rfl (by decide),
   fun hacc r hr => claim4_amended_backendPrecedence.2
     (fun _ => some [⟨"terraform", [], [⟨"backend", ["gcs"], []⟩]⟩])
     [⟨"b.tf", "d/b.tf", Except.ok "terraform gcs"⟩]
     ⟨[], [], some ⟨"s3", []⟩⟩ ⟨"s3", []⟩ hacc (by decide) r hr⟩

/-! ### Claim C3: the state-file scan always wins -/

/-- Claim C3: a directory holding a configuration file whose blocks
yield a backend descriptor and a state file whose content contains the
substring s3 or backend ends with the state-file-derived descriptor
kind s3 with empty settings, whichever of the two files the walk
visits first. -/
theorem claim3_stateFileBackendWins
    (hclParse : String → Option (List Block)) (tfc sc : String)
    (blocks : List Block) (bc : BackendConfig)
    (hp : hclParse tfc = some blocks)
    (hb : (parseBlocks blocks).backend = some bc)
    (hs : goContains sc "s3" = true ∨ goContains sc "backend" = true) :
    ∃ r1 r2,
      parseTerraformFiles hclParse
          [⟨"main.tf", "main.tf", Except.ok tfc⟩,
           ⟨"terraform.tfstate", "terraform.tfstate", Except.ok sc⟩]
        = Except.ok r1
      ∧ parseTerraformFiles hclParse
          [⟨"terraform.tfstate", "terraform.tfstate", Except.ok sc⟩,
           ⟨"main.tf", "main.tf", Except.ok tfc⟩]
        = Except.ok r2
      ∧ r1.backend = some ⟨"s3", []⟩ ∧ r2.backend = some ⟨"s3", []⟩ := by
  have hm : (goContains sc "s3" || goContains sc "backend") = true := by
    rcases hs with h | h <;> simp [h]
  have h1 : isTfName "main.tf" = true := by decide
  have h2 : isStateName "main.tf" = false := by decide
  have h3 : isTfName "terraform.tfstate" = false := by decide
  have h4 : isStateName "terraform.tfstate" = true := by decide
  have hpf : parseTerraformFile hclParse (Except.ok tfc) = Except.ok (parseBlocks blocks) := by
    simp [parseTerraformFile, hp]
  have htf : ∀ acc : ParseResult, acc.backend = none →
      walkStep hclParse acc ⟨"main.tf", "main.tf", Except.ok tfc⟩
        = Except.ok ⟨acc.resources ++ (parseBlocks blocks).resources,
            acc.dataSources ++ (parseBlocks blocks).dataSources, some bc⟩ := by
    intro acc hacc
    simp [walkStep, walkTfStep, walkStateStep, h1, h2, hpf, hb, hacc]
  have htf2 : ∀ acc : ParseResult, acc.backend = some ⟨"s3", []⟩ →
      walkStep hclParse acc ⟨"main.tf", "main.tf", Except.ok tfc⟩
        = Except.ok ⟨acc.resources ++ (parseBlocks blocks).resources,
            acc.dataSources ++ (parseBlocks blocks).dataSources, some ⟨"s3", []⟩⟩ := by
    intro acc hacc
    simp [walkStep, walkTfStep, walkStateStep, h1, h2, hpf, hb, hacc]
  have hstate : ∀ acc : ParseResult,
      walkStep hclParse acc ⟨"terraform.tfstate", "terraform.tfstate", Except.ok sc⟩
        = Except.ok { acc with backend := some ⟨"s3", []⟩ } := by
    intro acc
    simp [walkStep, walkTfStep, walkStateStep, h3, h4, extractBackendFromState, hm]
  refine ⟨⟨(parseBlocks blocks).resources, (parseBlocks blocks).dataSources, some ⟨"s3", []⟩⟩,
    ⟨(parseBlocks blocks).resources, (parseBlocks blocks).dataSources, some ⟨"s3", []⟩⟩,
    ?_, ?_, rfl, rfl⟩
  · show List.foldlM (walkStep hclParse) (⟨[], [], none⟩ : ParseResult) _ = _
    rw [List.foldlM_cons, htf ⟨[], [], none⟩ rfl]
    show List.foldlM (walkStep hclParse) _ _ = _
    rw [List.foldlM_cons, hstate _]
    show List.foldlM (walkStep hclParse) _ [] = _
    rw [List.foldlM_nil]
    rfl
  · show List.foldlM (walkStep hclParse) (⟨[], [], none⟩ : ParseResult) _ = _
    rw [List.foldlM_cons, hstate ⟨[], [], none⟩]
    show List.foldlM (walkStep hclParse) _ _ = _
    rw [List.foldlM_cons, htf2 _ rfl]
    show List.foldlM (walkStep hclParse) _ [] = _
    rw [List.foldlM_nil]
    rfl

/-- Witness for claim C3: a concrete parse oracle, a concrete block
list yielding a block-derived s3 descriptor with settings, and a state
file containing the substring backend; both visit orders end in the
settings-free s3 descriptor. -/
theorem claim3_witness :
    ∃ r1 r2,
      parseTerraformFiles
          (fun c => if c = "TFC" then some [⟨"terraform", [], [⟨"backend", ["s3"], [("bucket", some "b")]⟩]⟩] else none)
          [⟨"main.tf", "main.tf", Except.ok "TFC"⟩,
           ⟨"terraform.tfstate", "terraform.tfstate", Except.ok "x backend x"⟩]
        = Except.ok r1
      ∧ parseTerraformFiles
          (fun c => if c = "TFC" then some [⟨"terraform", [], [⟨"backend", ["s3"], [("bucket", some "b")]⟩]⟩] else none)
          [⟨"terraform.tfstate", "terraform.tfstate", Except.ok "x backend x"⟩,
           ⟨"main.tf", "main.tf", Except.ok "TFC"⟩]
        = Except.ok r2
      ∧ r1.backend = some ⟨"s3", []⟩ ∧ r2.backend = some ⟨"s3", []⟩ :=
  claim3_stateFileBackendWins
    (fun c => if c = "TFC" then some [⟨"terraform", [], [⟨"backend", ["s3"], [("bucket", some "b")]⟩]⟩] else none)
    "TFC" "x backend x"
    [⟨"terraform", [], [⟨"backend", ["s3"], [("bucket", some "b")]⟩]⟩]
    ⟨"s3", [("bucket", "b")]⟩
    (by decide) (by decide) (Or.inr (by decide))

/-! ### Claim C8: read errors and parse failures -/

/-- Counterexample to claim C8 as stated: a state file visited by the
walk whose read fails does not abort the run; the walk ignores the
error and returns an ok result. -/
theorem claim8_cex_stateReadErrorIgnored :
    parseTerraformFiles (fun _ => none)
        [⟨"terraform.tfstate", "d/terraform.tfstate", Except.error "permission denied"⟩]
      = Except.ok ⟨[], [], none⟩ := rfl

/-- Claim C8 as amended: a read error on a .tf configuration file
aborts the whole run immediately with an error wrapped to identify the
failing path; a structured-parse failure never aborts because the
fallback always returns ok; and a read error on a visited state file is
silently ignored, leaving the accumulated result unchanged. -/
theorem claim8_amended_errorHandling :
    (∀ (hclParse : String → Option (List Block)) (acc : ParseResult) (f : FileEntry)
        (rest : List FileEntry) (e : String),
        isTfName f.name = true → f.readResult = Except.error e →
        List.foldlM (walkStep hclParse) acc (f :: rest)
          = Except.error ("error parsing " ++ f.path ++ ": " ++ e))
    ∧ (∀ (hclParse : String → Option (List Block)) (content : String),
        (parseTerraformFile hclParse (Except.ok content)).isOk = true)
    ∧ (∀ (hclParse : String → Option (List Block)) (acc : ParseResult) (f : FileEntry)
        (e : String),
        isTfName f.name = false → isStateName f.name = true → f.readResult = Except.error e →
        walkStep hclParse acc f = Except.ok acc) := by
  refine ⟨?_, ?_, ?_⟩
  · intro hclParse acc f rest e htf hread
    rw [List.foldlM_cons]
    have hw : walkStep hclParse acc f = Except.error ("error parsing " ++ f.path ++ ": " ++ e) := by
      simp [walkStep, walkTfStep, htf, parseTerraformFile, hread]
    rw [hw]
    rfl
  · intro hclParse content
    cases hpc : hclParse content with
    | none => simp [parseTerraformFile, hpc, Except.isOk, Except.toBool]
    | some blocks => simp [parseTerraformFile, hpc, Except.isOk, Except.toBool]
  · intro hclParse acc f e h1 h2 hread
    simp [walkStep, walkTfStep, walkStateStep, h1, h2, extractBackendFromState, hread]

/-- Witness for claim C8 as amended: a concrete unreadable .tf file
aborts with the wrapped path, a concrete malformed file still parses
ok, and a concrete unreadable state file leaves the result unchanged. -/
theorem claim8_witness :
    List.foldlM (walkStep (fun _ => none)) (⟨[], [], none⟩ : ParseResult)
        [⟨"a.tf", "d/a.tf", Except.error "EACCES"⟩]
      = Except.error ("error parsing " ++ "d/a.tf" ++ ": " ++ "EACCES")
    ∧ (parseTerraformFile (fun _ => none) (Except.ok "resource \"x\"")).isOk = true
    ∧ walkStep (fun _ => none) ⟨[], [], none⟩ ⟨"s.tfstate", "d/s.tfstate", Except.error "e"⟩
      = Except.ok ⟨[], [], none⟩ :=
  ⟨claim8_amended_errorHandling.1 (fun _ => none) ⟨[], [], none⟩
      ⟨"a.tf", "d/a.tf", Except.error "EACCES"⟩ [] "EACCES" (by decide) rfl,
   claim8_amended_errorHandling.2.1 (fun _ => none) "resource \"x\"",
   claim8_amended_errorHandling.2.2 (fun _ => none) ⟨[], [], none⟩
      ⟨"s.tfstate", "d/s.tfstate", Except.error "e"⟩ "e" (by decide) (by decide) rfl⟩

/-! ### Claim C9: the fallback scanner hard-codes the aws provider -/

/-- The resource/data stage either leaves the extracted lists unchanged
or appends one entry whose provider is aws. -/
theorem scanResData_lists (st : ScanState) (t : String) :
    ((scanResData st t).res.resources = st.res.resources
      ∨ ∃ rt n, (scanResData st t).res.resources = st.res.resources ++ [⟨rt, n, "aws", rt⟩])
    ∧ ((scanResData st t).res.dataSources = st.res.dataSources
      ∨ ∃ rt n, (scanResData st t).res.dataSources = st.res.dataSources ++ [⟨rt, n, "aws", rt⟩]) := by
  simp only [scanResData, ite_self]
  split
  · split
    · exact ⟨Or.inr ⟨_, _, rfl⟩, Or.inl rfl⟩
    · exact ⟨Or.inl rfl, Or.inl rfl⟩
  · split
    · split
      · exact ⟨Or.inl rfl, Or.inr ⟨_, _, rfl⟩⟩
      · exact ⟨Or.inl rfl, Or.inl rfl⟩
    · exact ⟨Or.inl rfl, Or.inl rfl⟩

/-- The backend, terraform and closing-brace stages never touch the
extracted resource and data-source lists. -/
theorem scanTail_lists (st : ScanState) (t : String) :
    (scanClose (scanTerraform (scanBackend st t) t) t).res.resources = st.res.resources
    ∧ (scanClose (scanTerraform (scanBackend st t) t) t).res.dataSources = st.res.dataSources := by
  simp only [scanBackend, scanTerraform, scanClose]
  split_ifs <;> exact ⟨rfl, rfl⟩

/-- Processing one line preserves the all-providers-aws invariant. -/
theorem scanLine_providers (st : ScanState) (line : String)
    (hr : ∀ r ∈ st.res.resources, r.provider = "aws")
    (hd : ∀ d ∈ st.res.dataSources, d.provider = "aws") :
    (∀ r ∈ (scanLine st line).res.resources, r.provider = "aws")
    ∧ (∀ d ∈ (scanLine st line).res.dataSources, d.provider = "aws") := by
  simp only [scanLine]
  split
  · exact ⟨hr, hd⟩
  · obtain ⟨h1, h2⟩ := scanResData_lists st (goTrimSpace line)
    obtain ⟨h3, h4⟩ := scanTail_lists (scanResData st (goTrimSpace line)) (goTrimSpace line)
    rw [h3, h4]
    constructor
    · rcases h1 with h | ⟨rt, n, h⟩ <;> rw [h]
      · exact hr
      · intro r hrm
        rcases List.mem_append.1 hrm with h5 | h5
        · exact hr r h5
        · have : r = ⟨rt, n, "aws", rt⟩ := by simpa using h5
          rw [this]
    · rcases h2 with h | ⟨rt, n, h⟩ <;> rw [h]
      · exact hd
      · intro d hdm
        rcases List.mem_append.1 hdm with h5 | h5
        · exact hd d h5
        · have : d = ⟨rt, n, "aws", rt⟩ := by simpa using h5
          rw [this]

/-- Folding the scanner over any line list preserves the invariant. -/
theorem scanFold_providers :
    ∀ (lines : List String) (st : ScanState),
      (∀ r ∈ st.res.resources, r.provider = "aws") →
      (∀ d ∈ st.res.dataSources, d.provider = "aws") →
      (∀ r ∈ (lines.foldl scanLine st).res.resources, r.provider = "aws")
      ∧ (∀ d ∈ (lines.foldl scanLine st).res.dataSources, d.provider = "aws") := by
  intro lines
  induction lines with
  | nil => intro st hr hd; exact ⟨hr, hd⟩
  | cons l rest ih =>
    intro st hr hd
    rw [List.foldl_cons]
    obtain ⟨hr1, hd1⟩ := scanLine_providers st l hr hd
    exact ih _ hr1 hd1

/-- Claim C9: every resource and every data reference the fallback line
scanner extracts carries providerPrefix aws, whatever the prefix of its
type; in particular a google_storage_bucket recovered from a malformed
file gets provider aws, so the Synthesizer treats it as a
supported-provider resource. -/
theorem claim9_fallbackProviderAlwaysAws :
    (∀ content : String,
        (∀ r ∈ (extractWithSimpleParsing content).resources, r.provider = "aws")
        ∧ (∀ d ∈ (extractWithSimpleParsing content).dataSources, d.provider = "aws"))
    ∧ (extractWithSimpleParsing googleSample).resources.map (fun r => r.provider) = ["aws"] := by
  constructor
  · intro content
    exact scanFold_providers (goSplitNewline content) ⟨⟨[], [], none⟩, "", ""⟩
      (by intro r hr; simp at hr) (by intro d hd; simp at hd)
  · decide

end TfIamScanner
